import Mathlib

/-!
A shallow embedding of the minicell spreadsheet evaluator (src/index.ts).

Strings are modelled as `List Char`.  JavaScript numbers are modelled by
`JsNum`: an exact rational together with the IEEE special values
`+Infinity`, `-Infinity` and `NaN`.  Rounding of doubles is not modelled;
every claim below involves only small integers and short decimal
fractions, on which double arithmetic is exact.  The negative zero of
IEEE arithmetic is likewise not modelled (zero is treated as +0, which
matches the sign rules used by the claims).

JavaScript runtime values that can appear in a token's `value` field at
run time (numbers, or the strings held by `Operator`/`Ref` tokens) are
modelled by `JsVal`; the coercions performed by `+ - * /`, `isNaN` and
string concatenation are modelled by `jsToNumber`, `jsAdd`, `jsSub`,
`jsMul`, `jsDiv` following the ECMAScript ToNumber / ToString rules
(hexadecimal/octal/binary `Number` literals are not modelled: no string
reaching these conversions in the program is such a literal).
-/

abbrev Str := List Char

/-- A JavaScript double, modelled exactly: a rational or a special value. -/
inductive JsNum : Type
  | num (q : ℚ)
  | posInf
  | negInf
  | nan
deriving DecidableEq, Repr

namespace JsNum

/-- Unary minus on doubles. -/
def neg : JsNum → JsNum
  | num q => num (-q)
  | posInf => negInf
  | negInf => posInf
  | nan => nan

/-- IEEE addition (`x + y` on two JS numbers). -/
def add : JsNum → JsNum → JsNum
  | nan, _ => nan
  | _, nan => nan
  | posInf, negInf => nan
  | negInf, posInf => nan
  | posInf, _ => posInf
  | _, posInf => posInf
  | negInf, _ => negInf
  | _, negInf => negInf
  | num a, num b => num (a + b)

/-- IEEE subtraction: `a - b = a + (-b)`. -/
def sub (a b : JsNum) : JsNum := a.add b.neg

/-- IEEE multiplication; `0 * ±Infinity` is `NaN`. -/
def mul : JsNum → JsNum → JsNum
  | nan, _ => nan
  | _, nan => nan
  | num a, num b => num (a * b)
  | num a, posInf => if a = 0 then nan else if 0 < a then posInf else negInf
  | num a, negInf => if a = 0 then nan else if 0 < a then negInf else posInf
  | posInf, num b => if b = 0 then nan else if 0 < b then posInf else negInf
  | negInf, num b => if b = 0 then nan else if 0 < b then negInf else posInf
  | posInf, posInf => posInf
  | posInf, negInf => negInf
  | negInf, posInf => negInf
  | negInf, negInf => posInf

/-- IEEE division; `0/0` is `NaN`, `x/0` for `x ≠ 0` is a signed infinity
(the divisor zero is `+0`: negative zero is not modelled). -/
def div : JsNum → JsNum → JsNum
  | nan, _ => nan
  | _, nan => nan
  | posInf, posInf => nan
  | posInf, negInf => nan
  | negInf, posInf => nan
  | negInf, negInf => nan
  | posInf, num b => if 0 ≤ b then posInf else negInf
  | negInf, num b => if 0 ≤ b then negInf else posInf
  | num _, posInf => num 0
  | num _, negInf => num 0
  | num a, num b =>
      if b = 0 then (if a = 0 then nan else if 0 < a then posInf else negInf)
      else num (a / b)

end JsNum

/-- The value of a decimal digit character. -/
def digitVal (c : Char) : Nat := c.toNat - '0'.toNat

/-- The natural number denoted by a list of decimal digit characters. -/
def natOfDigits (ds : Str) : Nat := ds.foldl (fun a c => a * 10 + digitVal c) 0

/-- Scan a decimal literal `digits [. digits] [eE [+-] digits]` at the head
of the string.  Returns the exact value and the unconsumed rest, or `none`
when no digit was found.  A malformed exponent part is left unconsumed,
as `parseFloat` does. -/
def scanDecimal (cs : Str) : Option (ℚ × Str) :=
  let ip := cs.takeWhile Char.isDigit
  let r1 := cs.dropWhile Char.isDigit
  let fp : Str := match r1 with
    | '.' :: t => t.takeWhile Char.isDigit
    | _ => []
  let r2 : Str := match r1 with
    | '.' :: t => t.dropWhile Char.isDigit
    | _ => r1
  if ip.isEmpty && fp.isEmpty then none
  else
    let mant : ℚ := (natOfDigits ip : ℚ) + (natOfDigits fp : ℚ) / ((10 : ℚ) ^ fp.length)
    let ex : ℤ × Str := match r2 with
      | e :: t =>
        if e = 'e' ∨ e = 'E' then
          let st : ℤ × Str := match t with
            | '+' :: u => (1, u)
            | '-' :: u => (-1, u)
            | _ => (1, t)
          let eds := st.2.takeWhile Char.isDigit
          if eds.isEmpty then (0, r2)
          else (st.1 * (natOfDigits eds : ℤ), st.2.dropWhile Char.isDigit)
        else (0, r2)
      | [] => (0, r2)
    some (mant * (10 : ℚ) ^ ex.1, ex.2)

/-- JavaScript `String.prototype.trim` (the ASCII whitespace fragment). -/
def jsTrim (s : Str) : Str :=
  ((s.dropWhile Char.isWhitespace).reverse.dropWhile Char.isWhitespace).reverse

/-- JavaScript `parseFloat`: skip leading whitespace, optional sign,
`Infinity` or the longest decimal-literal prefix; `NaN` when no digits. -/
def jsParseFloat (s : Str) : JsNum :=
  let t := s.dropWhile Char.isWhitespace
  let sg : ℚ × Str := match t with
    | '+' :: u => (1, u)
    | '-' :: u => (-1, u)
    | _ => (1, t)
  if sg.2.take 8 = "Infinity".toList then
    (if sg.1 < 0 then JsNum.negInf else JsNum.posInf)
  else
    match scanDecimal sg.2 with
    | some (q, _) => JsNum.num (sg.1 * q)
    | none => JsNum.nan

/-- JavaScript `ToNumber` on a string (the `Number(s)` conversion): the
whole trimmed string must be a numeric literal; empty string is `0`. -/
def jsStringToNumber (s : Str) : JsNum :=
  let t := jsTrim s
  if t.isEmpty then JsNum.num 0
  else
    let sg : ℚ × Str := match t with
      | '+' :: u => (1, u)
      | '-' :: u => (-1, u)
      | _ => (1, t)
    if sg.2 = "Infinity".toList then
      (if sg.1 < 0 then JsNum.negInf else JsNum.posInf)
    else
      match scanDecimal sg.2 with
      | some (q, []) => JsNum.num (sg.1 * q)
      | _ => JsNum.nan

/-- Decimal digits of the fractional part of a nonnegative rational,
up to `k` places (enough for every number printed by the program flows
modelled here). -/
def fracDigits : Nat → ℚ → Str
  | 0, _ => []
  | k + 1, r =>
    if r = 0 then []
    else
      let r10 := r * 10
      Nat.digitChar r10.floor.toNat :: fracDigits k (r10 - r10.floor)

/-- JavaScript `ToString` on a number (decimal notation; the exponential
notation used for very large/small magnitudes is not modelled — it is
never reachable in the flows proved about below). -/
def jsNumToString : JsNum → Str
  | JsNum.nan => "NaN".toList
  | JsNum.posInf => "Infinity".toList
  | JsNum.negInf => "-Infinity".toList
  | JsNum.num q =>
    let render : ℚ → Str := fun r =>
      (Nat.repr r.floor.toNat).toList ++
        (let fd := fracDigits 20 (r - r.floor)
         if fd.isEmpty then [] else '.' :: fd)
    if q < 0 then '-' :: render (-q) else render q

/-- A JavaScript runtime value reachable in a token's `value` field:
a number or a string. -/
inductive JsVal : Type
  | n (v : JsNum)
  | s (v : Str)
deriving DecidableEq, Repr

/-- `ToString` on a `JsVal`. -/
def JsVal.toStr : JsVal → Str
  | .n v => jsNumToString v
  | .s v => v

/-- `ToNumber` on a `JsVal` (the coercion applied by `- * /` and `isNaN`). -/
def jsToNumber : JsVal → JsNum
  | .n v => v
  | .s v => jsStringToNumber v

/-- JavaScript `+`: string concatenation when either side is a string,
numeric addition otherwise. -/
def jsAdd : JsVal → JsVal → JsVal
  | .n a, .n b => .n (a.add b)
  | a, b => .s (a.toStr ++ b.toStr)

/-- JavaScript `-` (coerces both sides to numbers). -/
def jsSub (a b : JsVal) : JsVal := .n ((jsToNumber a).sub (jsToNumber b))

/-- JavaScript `*`. -/
def jsMul (a b : JsVal) : JsVal := .n ((jsToNumber a).mul (jsToNumber b))

/-- JavaScript `/`. -/
def jsDiv (a b : JsVal) : JsVal := .n ((jsToNumber a).div (jsToNumber b))

/-- JavaScript global `isNaN` (coerces its argument to a number). -/
def jsIsNaN (v : JsVal) : Prop := jsToNumber v = JsNum.nan

instance (v : JsVal) : Decidable (jsIsNaN v) := by unfold jsIsNaN; infer_instance

/- ---------------------------------------------------------------------
Data model (`MathOp`, `MathToken`, `MathExp`, `CellContent`, `Cell`),
mirroring the TypeScript type declarations.
--------------------------------------------------------------------- -/

/-- `type MathOp = "+" | "-" | "*" | "/"`. -/
inductive MathOp : Type
  | add
  | sub
  | mul
  | div
deriving DecidableEq, Repr

/-- The source character of a `MathOp`. -/
def MathOp.toChar : MathOp → Char
  | .add => '+'
  | .sub => '-'
  | .mul => '*'
  | .div => '/'

/-- The `MathOp` denoted by one of the characters `+ - * /` (only ever
applied to one of those four characters; `/` is the fall-through case). -/
def MathOp.ofChar : Char → MathOp
  | '+' => .add
  | '-' => .sub
  | '*' => .mul
  | _ => .div

/-- `type MathToken = Operator | Value | Ref`.  The `value` field of a
`Value` token is typed `number` in the source but can hold a string at
run time (a `calcMath` collapse step stores the result of a JavaScript
`+`), hence the payload `JsVal`. -/
inductive MathToken : Type
  | Operator (value : MathOp)
  | Value (value : JsVal)
  | Ref (value : Str)
deriving DecidableEq, Repr

/-- `type MathExp = MathToken[]`. -/
abbrev MathExp := List MathToken

/-- The runtime `value` field of a token (`Operator` and `Ref` hold
strings). -/
def MathToken.jsValue : MathToken → JsVal
  | .Operator o => .s [o.toChar]
  | .Value v => v
  | .Ref r => .s r

/-- `type CellContent = Value | Identifier | Expression` with the parsed
payload and the original source text. -/
inductive CellContent : Type
  | Value (value : JsNum) (src : Str)
  | Identifier (value : Str) (src : Str)
  | Expression (value : MathExp) (src : Str)
deriving DecidableEq, Repr

/-- `type Cell = { content, identifier }`. -/
structure Cell : Type where
  content : CellContent
  identifier : Str
deriving DecidableEq, Repr

/-- The errors thrown by the program.  Each constructor corresponds to one
`throw` site of src/index.ts (payloads record what the message
interpolates); `typeError` is the JavaScript `TypeError` thrown by a
property access on `undefined`; `outOfFuel` is a modelling artifact
marking recursion deeper than the supplied fuel (the JS original has no
such bound and would recurse further). -/
inductive Err : Type
  | invalidExpression (src : Str)
  | invalidNumberLiteral (numRaw : Str)
  | invalidCellValue (src : Str)
  | invalidGrid
  | onlyIdentifiersInFirstRow
  | duplicateIdentifiers
  | identifiersOnlyInFirstRow
  | cannotEvaluateIdentifier (value : Str)
  | couldNotFindRef (ref : Str)
  | cyclicReference (chain : List Str)
  | arithmeticError (left mid right : JsVal)
  | invalidToken (value : JsVal)
  | typeError
  | outOfFuel
deriving DecidableEq, Repr

/- ---------------------------------------------------------------------
Tokenizer (`parseMathExp`), cell classifier (`parseCell`) and grid
parser (`parseCells`).

The tokenizer's `while` loop is modelled with structural fuel: every
iteration consumes at least the shifted head character, so the input
length bounds the number of iterations — `tokenizeAux` carries that
invariant and `tokenize` instantiates the fuel with the input length.
The greedy inner scans (shift / test / unshift-and-break) are exactly
`takeWhile` / `dropWhile`.
--------------------------------------------------------------------- -/

/-- One step of the numeric scan test: `char === "." || DIGIT_REGEX.test(char)`. -/
def isNumChar (c : Char) : Bool := c = '.' || c.isDigit

/-- One step of the reference scan test:
`ALPHA_REGEX.test(char) || DIGIT_REGEX.test(char)`. -/
def isRefChar (c : Char) : Bool := c.isAlpha || c.isDigit

/-- The tokenizer loop of `parseMathExp` (src/index.ts lines 48–97). -/
def tokenizeAux : (fuel : Nat) → (chars : Str) → chars.length ≤ fuel → Except Err MathExp
  | 0, _, _ => .ok []
  | _ + 1, [], _ => .ok []
  | fuel + 1, c :: rest, h =>
    if c.isWhitespace then
      -- `if (!char.trim().length) continue;`
      tokenizeAux fuel rest (by simpa using Nat.le_of_succ_le_succ (by simpa using h))
    else if isNumChar c || c = '-' then
      -- numeric-literal scan
      let numRaw : Str := c :: rest.takeWhile isNumChar
      let rest1 : Str := rest.dropWhile isNumChar
      have h1 : rest1.length ≤ fuel := by
        have := (List.dropWhile_sublist isNumChar (l := rest)).length_le
        simp only [List.length_cons] at h
        exact le_trans this (Nat.le_of_succ_le_succ h)
      if numRaw = ['-'] then
        (tokenizeAux fuel rest1 h1).map (.Operator .sub :: ·)
      else
        let num := jsParseFloat numRaw
        if num = JsNum.nan then .error (.invalidNumberLiteral numRaw)
        else (tokenizeAux fuel rest1 h1).map (.Value (.n num) :: ·)
    else if c = '+' || c = '-' || c = '/' || c = '*' then
      (tokenizeAux fuel rest (by
        simp only [List.length_cons] at h
        exact Nat.le_of_succ_le_succ h)).map (.Operator (MathOp.ofChar c) :: ·)
    else if c.isAlpha then
      -- reference scan
      let ref : Str := c :: rest.takeWhile isRefChar
      let rest1 : Str := rest.dropWhile isRefChar
      have h1 : rest1.length ≤ fuel := by
        have := (List.dropWhile_sublist isRefChar (l := rest)).length_le
        simp only [List.length_cons] at h
        exact le_trans this (Nat.le_of_succ_le_succ h)
      (tokenizeAux fuel rest1 h1).map (.Ref ref :: ·)
    else
      -- any other character is silently dropped
      tokenizeAux fuel rest (by
        simp only [List.length_cons] at h
        exact Nat.le_of_succ_le_succ h)

/-- `parseMathExp` (src/index.ts lines 42–99): requires the leading `=`,
then tokenizes the remaining characters. -/
def parseMathExp (src : Str) : Except Err MathExp :=
  match src with
  | '=' :: chars => tokenizeAux chars.length chars le_rfl
  | _ => .error (.invalidExpression src)

/-- `^[a-zA-Z]+$` on a whole string. -/
def isAlphaStr (s : Str) : Bool := !s.isEmpty && s.all Char.isAlpha

/-- `parseCell` (src/index.ts lines 101–124): Identifier, else Expression,
else Value by `parseFloat` prefix, else `Invalid Cell Value`. -/
def parseCell (src : Str) : Except Err CellContent :=
  if isAlphaStr src then .ok (.Identifier src src)
  else if src.head? = some '=' then
    (parseMathExp src).map (fun e => .Expression e src)
  else if ¬(jsParseFloat src = JsNum.nan) then .ok (.Value (jsParseFloat src) src)
  else .error (.invalidCellValue src)

/-- The `value` field of a `CellContent`, as compared by the duplicate
check (`new Set(header.map(c => c.value))`).  When the check runs, every
header cell is an `Identifier`, so only string payloads are compared. -/
inductive CellVal : Type
  | num (v : JsNum)
  | str (v : Str)
  | exp (v : MathExp)
deriving DecidableEq, Repr

/-- The `c.value` accessor on a `CellContent`. -/
def CellContent.value : CellContent → CellVal
  | .Value v _ => .num v
  | .Identifier v _ => .str v
  | .Expression v _ => .exp v

/-- Whether a `CellContent` is an `Identifier` (`cell.type === "Identifier"`). -/
def CellContent.isIdentifier : CellContent → Bool
  | .Identifier _ _ => true
  | _ => false

/-- The string interpolation `${header[idIndex].value}` used to build a
data-cell identifier.  Headers are verified to be identifiers before this
runs, so only the `Identifier` arm is reachable. -/
def CellContent.valueStr : CellContent → Str
  | .Identifier v _ => v
  | .Value v _ => jsNumToString v
  | .Expression _ src => src

/-- Build the cells of one data row (the inner `for` loop of
`parseCells`): `i` is the 0-based row index among data rows, identifiers
are `<headerValue><i+1>`, and an `Identifier` classification is rejected. -/
def buildRow (header : List CellContent) (i : Nat) (row : List Str) :
    Except Err (List Cell) :=
  (row.zip header).mapM (fun p => do
    let identifier := p.2.valueStr ++ (Nat.repr (i + 1)).toList
    let cellContent ← parseCell p.1
    if cellContent.isIdentifier then
      .error .identifiersOnlyInFirstRow
    else
      .ok { content := cellContent, identifier := identifier })

/-- `parseCells` (src/index.ts lines 126–158): split lines and commas,
drop whitespace-only fields and empty rows, trim, enforce rectangularity,
parse the header row (identifiers only, pairwise distinct), then build
every data cell. -/
def parseCells (src : Str) : Except Err (List Cell × List CellContent) :=
  let cellsSrc :=
    (((src.splitOn '\n').map
      (fun line => (line.splitOn ',').filter (fun t => !(jsTrim t).isEmpty))).filter
        (fun c => !c.isEmpty)).map (fun c => c.map jsTrim)
  match cellsSrc with
  | [] => .ok ([], [])
  | row0 :: rows =>
    if ¬((row0 :: rows).all (fun row => row.length = row0.length)) then
      .error .invalidGrid
    else do
      let header ← row0.mapM parseCell
      if ¬(header.all CellContent.isIdentifier) then
        .error .onlyIdentifiersInFirstRow
      else if ¬(header.map CellContent.value).Nodup then
        .error .duplicateIdentifiers
      else do
        let rowCells ← rows.enum.mapM (fun p => buildRow header p.1 p.2)
        .ok (rowCells.flatten, header)

/- ---------------------------------------------------------------------
Arithmetic reducer (`calcMath`, src/index.ts lines 194–230).

The two `while (true)` loops each find the leftmost operator of their
tier and splice the three-token window into one `Value` token, so each
iteration shortens the list by two.  The loop is modelled with structural
fuel carrying the invariant `l.length ≤ fuel`, instantiated with the list
length, which therefore never runs out (the fuel-0 arm can only see the
empty list, on which the loop exits immediately).

`prepared[i - 1]` for `i = 0` is `prepared[-1] = undefined` in
JavaScript, and reading `.value` from it throws a `TypeError`; the same
happens for `prepared[i + 1]` past the end, and for `cells[i]` in the
error-message interpolation.  Those sites are modelled by `Err.typeError`.
--------------------------------------------------------------------- -/

/-- `Array.prototype.findIndex` (as an `Option Nat`). -/
def findIdxAux (p : MathToken → Bool) : List MathToken → Nat → Option Nat
  | [], _ => none
  | t :: ts, k => if p t then some k else findIdxAux p ts (k + 1)

/-- `c.type === "Operator" && (c.value === "*" || c.value === "/")`. -/
def isMulDiv : MathToken → Bool
  | .Operator .mul => true
  | .Operator .div => true
  | _ => false

/-- `c.type === "Operator" && (c.value === "-" || c.value === "+")`. -/
def isAddSub : MathToken → Bool
  | .Operator .add => true
  | .Operator .sub => true
  | _ => false

/-- `prepared.splice(i - 1, 3, t)`: replace the window `[i-1, i, i+1]`
by the single token `t`. -/
def spliceAt (l : List MathToken) (i : Nat) (t : MathToken) : List MathToken :=
  l.take (i - 1) ++ t :: l.drop (i + 2)

/-- One collapse loop of `calcMath`.  `tier1` selects the `*`/`/` pass,
`orig` is the unmutated `cells` argument used by the error message. -/
def runPassAux (tier1 : Bool) (orig : List MathToken) :
    (fuel : Nat) → (l : List MathToken) → l.length ≤ fuel → Except Err (List MathToken)
  | 0, l, _ => .ok l
  | fuel + 1, l, h =>
    match hfind : findIdxAux (if tier1 then isMulDiv else isAddSub) l 0 with
    | none => .ok l
    | some i =>
      if hi : i = 0 then
        .error .typeError  -- `prepared[-1].value`
      else
        match hL : l.get? (i - 1) with
        | none => .error .typeError
        | some leftTok =>
          match hR : l.get? (i + 1) with
          | none => .error .typeError  -- e.g. a trailing operator
          | some rightTok =>
            match hI : l.get? i with
            | none => .error .typeError  -- unreachable: `findIndex` returned `i`
            | some opTok =>
              let left := leftTok.jsValue
              let right := rightTok.jsValue
              let v : JsVal :=
                if tier1 then
                  (if opTok.jsValue = JsVal.s ['*'] then jsMul left right
                   else jsDiv left right)
                else
                  (if opTok.jsValue = JsVal.s ['+'] then jsAdd left right
                   else jsSub left right)
              if jsIsNaN v then
                match orig.get? i with
                | none => .error .typeError  -- `cells[i].value` out of range
                | some midTok => .error (.arithmeticError left midTok.jsValue right)
              else
                runPassAux tier1 orig fuel (spliceAt l i (.Value v)) (by
                  have hlt : i + 1 < l.length := (List.get?_eq_some.mp hR).1
                  have h1 : 1 ≤ i := Nat.one_le_iff_ne_zero.mpr hi
                  simp only [spliceAt, List.length_append, List.length_cons,
                    List.length_take, List.length_drop]
                  omega)

/-- One full pass (`while (true) { findIndex …; splice … }`). -/
def runPass (tier1 : Bool) (orig l : List MathToken) : Except Err (List MathToken) :=
  runPassAux tier1 orig l.length l le_rfl

/-- The final fold `prepared.reduce((acc, v) => …, 0)`: sum the `Value`
tokens left-to-right, throw on anything else. -/
def sumTokens (acc : JsVal) : List MathToken → Except Err JsVal
  | [] => .ok acc
  | .Value v :: rest => sumTokens (jsAdd acc v) rest
  | t :: _ => .error (.invalidToken t.jsValue)

/-- `calcMath` (src/index.ts lines 194–230): the `*`/`/` pass, then the
`+`/`-` pass, then the summing fold from `0`. -/
def calcMath (cells : List MathToken) : Except Err JsVal :=
  match runPass true cells cells with
  | .error e => .error e
  | .ok p1 =>
    match runPass false cells p1 with
    | .error e => .error e
    | .ok p2 => sumTokens (JsVal.n (JsNum.num 0)) p2

/- ---------------------------------------------------------------------
Evaluator (`evalCell`, src/index.ts lines 160–192).

The module-level mutable `let refTrace: Cell[] = []` is modelled by
threading the trace in and out of every call, **including the error
path**: a JavaScript exception leaves the global in whatever state it
had, so the result type is a pair of the outcome and the final trace.

`refTrace[0] === refTrace[refTrace.length - 1]` compares object
identities; the cells pushed on the trace are always elements of the
`cells` array (the initial `push(cell)` receives such an element from
`main`/the recursion, the other pushes receive `find` results), and the
grids of the claims give distinct cells distinct identifiers, so
structural equality of the modelled cells coincides with JS identity.

The recursion has no a-priori bound (that is the point of claim C1), so
it is modelled with fuel counting the nesting depth of `evalCell` calls;
`Err.outOfFuel` marks an evaluation that is still recursing when the
fuel runs out.
--------------------------------------------------------------------- -/

/-- The `cell.content.value.map(token => …)` loop resolving `Ref` tokens:
`ev` is the recursive evaluator at the next fuel level, `cell` the cell
whose expression is being resolved.  Returns the substituted tokens and
the trace as left by the loop (first component error = thrown exception). -/
def evalTokensWith (ev : Cell → List Cell → List Cell → Except Err JsVal × List Cell)
    (cell : Cell) (cells : List Cell) :
    List MathToken → List Cell → Except Err (List MathToken) × List Cell
  | [], trace => (.ok [], trace)
  | .Ref r :: rest, trace =>
    -- `if (refTrace.length === 0) refTrace.push(cell);`
    let trace1 := if trace.isEmpty then trace ++ [cell] else trace
    match cells.find? (fun c => c.identifier = r) with
    | none => (.error (.couldNotFindRef r), trace1)
    | some target =>
      -- `refTrace.push(targetCell);`
      let trace2 := trace1 ++ [target]
      match ev target cells trace2 with
      | (.error e, tr) => (.error e, tr)
      | (.ok v, _) =>
        -- `refTrace = [];` after a successful resolution
        match evalTokensWith ev cell cells rest [] with
        | (.ok toks, tr) => (.ok (.Value v :: toks), tr)
        | (.error e, tr) => (.error e, tr)
  | tok :: rest, trace =>
    match evalTokensWith ev cell cells rest trace with
    | (.ok toks, tr) => (.ok (tok :: toks), tr)
    | (.error e, tr) => (.error e, tr)

/-- `evalCell` (src/index.ts lines 160–192).  The fuel is the remaining
call-stack depth; the cycle check, the `Identifier` rejection, the
`Value` shortcut and the `Expression` resolution follow the source
line by line.  (The trailing `throw Could not evaluate cell` of the
source is unreachable: the three content types are exhaustive.) -/
def evalCell : Nat → Cell → List Cell → List Cell → Except Err JsVal × List Cell
  | 0, _, _, trace => (.error .outOfFuel, trace)
  | fuel + 1, cell, cells, trace =>
    if trace.length > 1 ∧ trace.head? = trace.getLast? then
      (.error (.cyclicReference (trace.map Cell.identifier)), trace)
    else
      match cell.content with
      | .Identifier v _ => (.error (.cannotEvaluateIdentifier v), trace)
      | .Value v _ => (.ok (.n v), trace)
      | .Expression toks _ =>
        match evalTokensWith (fun t cs tr => evalCell fuel t cs tr) cell cells toks trace with
        | (.error e, tr) => (.error e, tr)
        | (.ok prepared, tr) =>
          match calcMath prepared with
          | .ok v => (.ok v, tr)
          | .error e => (.error e, tr)

/-- Decidable equality of `Except` results (not provided by core). -/
instance {ε α : Type} [DecidableEq ε] [DecidableEq α] : DecidableEq (Except ε α) := fun x y =>
  match x, y with
  | .ok a, .ok b =>
    if h : a = b then isTrue (by rw [h]) else isFalse (fun hc => by cases hc; exact h rfl)
  | .error a, .error b =>
    if h : a = b then isTrue (by rw [h]) else isFalse (fun hc => by cases hc; exact h rfl)
  | .ok _, .error _ => isFalse (fun hc => by cases hc)
  | .error _, .ok _ => isFalse (fun hc => by cases hc)

/- ---------------------------------------------------------------------
Concrete grids used by the claims (each is exactly what `parseCells`
produces on the quoted source text; the claim theorems verify that).
--------------------------------------------------------------------- -/

/-- The single cell of the grid `"A\n=A1"`: a direct self-reference. -/
def selfRefCell : Cell :=
  ⟨.Expression [.Ref ['A', '1']] "=A1".toList, ['A', '1']⟩

/-- The first data cell of the grid `"A,B\n1,=A1+1"`: the literal `1`
addressed as `A1`. -/
def gridABCellA1 : Cell := ⟨.Value (.num 1) ['1'], ['A', '1']⟩

/-- The second data cell of the grid `"A,B\n1,=A1+1"`: the formula
`=A1+1` addressed as `B1`. -/
def gridABCellB1 : Cell :=
  ⟨.Expression [.Ref ['A', '1'], .Operator .add, .Value (.n (.num 1))]
    "=A1+1".toList, ['B', '1']⟩

/-- The cells of the grid `"A,B\n1,=A1+1"`. -/
def gridABCells : List Cell := [gridABCellA1, gridABCellB1]

/-- The first cell (`A1`, holding `=B1`) of the grid
`"A,B,C\n=B1,=C1,=B1"`. -/
def cycCellA1 : Cell := ⟨.Expression [.Ref ['B', '1']] "=B1".toList, ['A', '1']⟩

/-- The cells of the grid `"A,B,C\n=B1,=C1,=B1"`: the reference cycle
`B1 → C1 → B1` does not pass through `A1`. -/
def cycCells : List Cell :=
  [cycCellA1,
   ⟨.Expression [.Ref ['C', '1']] "=C1".toList, ['B', '1']⟩,
   ⟨.Expression [.Ref ['B', '1']] "=B1".toList, ['C', '1']⟩]

/-- The rank witnessing that the references of `"A,B\n1,=A1+1"` are
acyclic: `B1` refers only to `A1`. -/
def rankAB (s : Str) : Nat := if s = ['B', '1'] then 1 else 0

/- ---------------------------------------------------------------------
Helper lemmas.
--------------------------------------------------------------------- -/

/-- Adding to `0` is the identity on JS numbers (the fold of `calcMath`
starts from the JavaScript number `0`). -/
theorem JsNum.zero_add (x : JsNum) : (JsNum.num 0).add x = x := by
  cases x <;> simp [JsNum.add]

/-- The cycle check at the head of `evalCell`: whenever the trace has
more than one entry and equal first and last entries, any call fails at
once with `CyclicReference` on the trace's identifier chain, leaving the
trace untouched. -/
theorem evalCell_cyclic_guard (fuel : Nat) (cell : Cell) (cells : List Cell)
    (trace : List Cell) (h1 : trace.length > 1)
    (h2 : trace.head? = trace.getLast?) :
    evalCell (fuel + 1) cell cells trace =
      (.error (.cyclicReference (trace.map Cell.identifier)), trace) := by
  simp [evalCell, h1, h2]

/-- `Except.map` never turns success into failure. -/
theorem except_map_eq_error {e1 e2 : Type} {b : Type} {f : e2 → b} {x : Except e1 e2} {e : e1} :
    Except.map f x = .error e ↔ x = .error e := by
  cases x <;> simp [Except.map]

/-- `tokenizeAux` can only fail with `InvalidNumberLiteral`. -/
theorem tokenizeAux_error (fuel : Nat) :
    ∀ (cs : Str) (hlen : cs.length ≤ fuel) (e : Err),
      tokenizeAux fuel cs hlen = .error e → ∃ raw, e = .invalidNumberLiteral raw := by
  induction fuel with
  | zero => intro cs hlen e he; simp [tokenizeAux] at he
  | succ n ih =>
    intro cs hlen e he
    match cs with
    | [] => simp [tokenizeAux] at he
    | c :: rest =>
      rw [tokenizeAux] at he
      dsimp only [] at he
      split_ifs at he
      all_goals first
        | exact ih _ _ _ he
        | exact ih _ _ _ (except_map_eq_error.mp he)
        | exact ⟨_, (Except.error.inj he).symm⟩


/-- `findIndex` returning "not found" means no element satisfies the
predicate. -/
theorem findIdxAux_none (p : MathToken → Bool) :
    ∀ (l : List MathToken) (k : Nat), findIdxAux p l k = none →
      ∀ t ∈ l, p t = false := by
  intro l
  induction l with
  | nil => intro k _ t ht; cases ht
  | cons a as ih =>
    intro k hf t ht
    rw [findIdxAux] at hf
    by_cases hp : p a
    · simp [hp] at hf
    · rcases List.mem_cons.mp ht with rfl | ht2
      · simpa using hp
      · exact ih (k + 1) (by simpa [hp] using hf) t ht2

/-- A collapse pass can only fail with the `TypeError` of an
out-of-range element access or with `ArithmeticError`. -/
theorem runPassAux_error_shape (tier1 : Bool) (orig : List MathToken) :
    ∀ (fuel : Nat) (l : List MathToken) (h : l.length ≤ fuel) (e : Err),
      runPassAux tier1 orig fuel l h = .error e →
        e = .typeError ∨ ∃ a b c, e = .arithmeticError a b c := by
  intro fuel
  induction fuel with
  | zero => intro l h e he; simp [runPassAux] at he
  | succ n ih =>
    intro l h e he
    rw [runPassAux] at he
    split at he
    case _ hfind => exact Except.noConfusion he
    case _ i hfind =>
      repeat' (first | split at he | dsimp only [] at he)
      all_goals first
        | exact Or.inl (Except.error.inj he).symm
        | exact Or.inr ⟨_, _, _, (Except.error.inj he).symm⟩
        | exact ih _ _ e he

/-- A collapse pass that exits normally has removed every operator of
its tier, and every token of its output is either a token of its input
or a freshly spliced-in `Value`. -/
theorem runPassAux_ok_shape (tier1 : Bool) (orig : List MathToken) :
    ∀ (fuel : Nat) (l : List MathToken) (h : l.length ≤ fuel) (out : List MathToken),
      runPassAux tier1 orig fuel l h = .ok out →
        (∀ t ∈ out, (if tier1 then isMulDiv else isAddSub) t = false) ∧
          (∀ t ∈ out, t ∈ l ∨ ∃ v, t = .Value v) := by
  intro fuel
  induction fuel with
  | zero =>
    intro l h out hout
    have hl : l = [] := List.length_eq_zero.mp (Nat.le_zero.mp h)
    subst hl
    rw [runPassAux] at hout
    injection hout with h2
    subst h2
    exact ⟨fun t ht => absurd ht (List.not_mem_nil t), fun t ht => absurd ht (List.not_mem_nil t)⟩
  | succ n ih =>
    intro l h out hout
    rw [runPassAux] at hout
    split at hout
    case _ hfind =>
      injection hout with h2
      subst h2
      exact ⟨fun t ht => findIdxAux_none _ l 0 hfind t ht, fun t ht => Or.inl ht⟩
    case _ i hfind =>
      repeat' (first | split at hout | dsimp only [] at hout)
      all_goals first
        | exact Except.noConfusion hout
        | (have hrec := ih _ _ _ hout
           refine ⟨hrec.1, fun t ht => ?_⟩
           rcases hrec.2 t ht with hm | hv
           · simp only [spliceAt, List.mem_append, List.mem_cons] at hm
             rcases hm with hm | hm | hm
             · exact Or.inl (List.take_subset _ l hm)
             · exact Or.inr ⟨_, hm⟩
             · exact Or.inl (List.drop_subset _ l hm)
           · exact Or.inr hv)

/-- The final fold can only fail with the `Invalid token` error. -/
theorem sumTokens_error_shape :
    ∀ (l : List MathToken) (acc : JsVal) (e : Err),
      sumTokens acc l = .error e → ∃ jv, e = .invalidToken jv := by
  intro l
  induction l with
  | nil => intro acc e he; simp [sumTokens] at he
  | cons t rest ih =>
    intro acc e he
    match t with
    | .Value v => exact ih _ e he
    | .Operator o => exact ⟨_, (Except.error.inj he).symm⟩
    | .Ref r => exact ⟨_, (Except.error.inj he).symm⟩

/-- On a list of `Value` tokens the final fold succeeds and returns the
left fold of JavaScript `+` over their values. -/
theorem sumTokens_all_value :
    ∀ (l : List MathToken) (acc : JsVal), (∀ t ∈ l, ∃ v, t = .Value v) →
      sumTokens acc l = .ok (l.foldl (fun a t => jsAdd a t.jsValue) acc) := by
  intro l
  induction l with
  | nil => intro acc _; rfl
  | cons t rest ih =>
    intro acc hall
    obtain ⟨v, rfl⟩ := hall t (List.mem_cons_self t rest)
    simpa [sumTokens, MathToken.jsValue] using
      ih (jsAdd acc v) (fun t ht => hall t (List.mem_cons_of_mem _ ht))

/-- A predicate false on every element is never found by `findIndex`. -/
theorem findIdxAux_none_of_all (p : MathToken → Bool) :
    ∀ (l : List MathToken) (k : Nat), (∀ t ∈ l, p t = false) →
      findIdxAux p l k = none := by
  intro l
  induction l with
  | nil => intro k _; rfl
  | cons a as ih =>
    intro k hall
    rw [findIdxAux]
    simp only [hall a (List.mem_cons_self a as)]
    exact ih (k + 1) (fun t ht => hall t (List.mem_cons_of_mem _ ht))

/-- A collapse pass leaves a list with no operator of its tier unchanged. -/
theorem runPassAux_no_op (tier1 : Bool) (orig : List MathToken)
    (fuel : Nat) (l : List MathToken) (h : l.length ≤ fuel)
    (hall : ∀ t ∈ l, (if tier1 then isMulDiv else isAddSub) t = false) :
    runPassAux tier1 orig fuel l h = .ok l := by
  cases fuel with
  | zero => rfl
  | succ n =>
    rw [runPassAux]
    rw [findIdxAux_none_of_all _ l 0 hall]

/-- `calcMath` on a list of `Value` tokens: both passes are the
identity and the fold sums the values from `0` (in particular, the
empty list yields `0` and adjacent values are summed with no operator
between them). -/
theorem calcMath_all_value (l : List MathToken)
    (hall : ∀ t ∈ l, ∃ v, t = .Value v) :
    calcMath l = .ok (l.foldl (fun a t => jsAdd a t.jsValue) (JsVal.n (JsNum.num 0))) := by
  have hop : ∀ (tier1 : Bool), ∀ t ∈ l, (if tier1 then isMulDiv else isAddSub) t = false := by
    intro tier1 t ht
    obtain ⟨v, rfl⟩ := hall t ht
    cases tier1 <;> simp [isMulDiv, isAddSub]
  have e1 : runPass true l l = .ok l := runPassAux_no_op true l l.length l le_rfl (hop true)
  have e2 : runPass false l l = .ok l := runPassAux_no_op false l l.length l le_rfl (hop false)
  simp only [calcMath, e1, e2]
  exact sumTokens_all_value l _ hall

/-- On a token list containing no `Ref` token, the final fold of
`calcMath` cannot fail: after the two passes no `Operator` token is left
(each pass removes its own tier and inserts only `Value` tokens), so the
`Invalid token` error of the fold is unreachable for operators — it can
only ever fire on a leftover `Ref`. -/
theorem calcMath_no_invalidToken (l : List MathToken)
    (hnoref : ∀ t ∈ l, ∀ r, t ≠ .Ref r) (jv : JsVal) :
    calcMath l ≠ .error (.invalidToken jv) := by
  intro hc
  rw [calcMath] at hc
  cases h1 : runPass true l l with
  | error e =>
    simp only [h1] at hc
    rcases runPassAux_error_shape true l l.length l le_rfl e h1 with rfl | ⟨a, b, c, rfl⟩ <;>
      exact Err.noConfusion (Except.error.inj hc)
  | ok p1 =>
    simp only [h1] at hc
    cases h2 : runPass false l p1 with
    | error e =>
      simp only [h2] at hc
      rcases runPassAux_error_shape false l p1.length p1 le_rfl e h2 with rfl | ⟨a, b, c, rfl⟩ <;>
        exact Err.noConfusion (Except.error.inj hc)
    | ok p2 =>
      simp only [h2] at hc
      have hp1 := runPassAux_ok_shape true l l.length l le_rfl p1 h1
      have hp2 := runPassAux_ok_shape false l p1.length p1 le_rfl p2 h2
      have hval : ∀ t ∈ p2, ∃ v, t = .Value v := by
        intro t ht
        rcases hp2.2 t ht with hm1 | hv
        · rcases hp1.2 t hm1 with hm0 | hv
          · -- a surviving input token: not a Ref, not an operator of either tier
            have ha := hp2.1 t ht
            have hb := hp1.1 t hm1
            have hr := hnoref t hm0
            cases t with
            | Value v => exact ⟨v, rfl⟩
            | Operator o => cases o <;> simp [isMulDiv, isAddSub] at ha hb
            | Ref r => exact absurd rfl (hr r)
          · exact hv
        · exact hv
      rw [sumTokens_all_value p2 _ hval] at hc
      exact Except.noConfusion hc

/-- `calcMath` never reports fuel exhaustion (it is a total loop). -/
theorem calcMath_not_outOfFuel (l : List MathToken) :
    calcMath l ≠ .error .outOfFuel := by
  intro hc
  rw [calcMath] at hc
  cases h1 : runPass true l l with
  | error e =>
    simp only [h1] at hc
    rcases runPassAux_error_shape true l l.length l le_rfl e h1 with rfl | ⟨a, b, c, rfl⟩ <;>
      exact Err.noConfusion (Except.error.inj hc)
  | ok p1 =>
    simp only [h1] at hc
    cases h2 : runPass false l p1 with
    | error e =>
      simp only [h2] at hc
      rcases runPassAux_error_shape false l p1.length p1 le_rfl e h2 with rfl | ⟨a, b, c, rfl⟩ <;>
        exact Err.noConfusion (Except.error.inj hc)
    | ok p2 =>
      simp only [h2] at hc
      rcases sumTokens_error_shape p2 _ _ hc with ⟨jv, hjv⟩
      cases hjv

/-- The tokens of a cell's expression (empty for `Value`/`Identifier`
cells, which hold no references). -/
def Cell.tokens (c : Cell) : List MathToken :=
  match c.content with
  | .Expression ts _ => ts
  | _ => []

/-- An acyclic reference structure, witnessed by a rank that strictly
decreases along every resolvable reference of every cell of the grid. -/
def RefsDecrease (rank : Str → Nat) (cells : List Cell) : Prop :=
  ∀ c ∈ cells, ∀ r, MathToken.Ref r ∈ c.tokens →
    ∀ t, cells.find? (fun x => x.identifier = r) = some t →
      rank t.identifier < rank c.identifier

/-- If the recursive evaluator never exhausts its fuel on any reference
target of the token list, neither does the substitution loop. -/
theorem evalTokensWith_not_outOfFuel
    (ev : Cell → List Cell → List Cell → Except Err JsVal × List Cell)
    (cell : Cell) (cells : List Cell) :
    ∀ (toks : List MathToken),
      (∀ r, MathToken.Ref r ∈ toks →
        ∀ t, cells.find? (fun x => x.identifier = r) = some t →
          ∀ tr, (ev t cells tr).1 ≠ .error .outOfFuel) →
      ∀ (trace : List Cell),
        (evalTokensWith ev cell cells toks trace).1 ≠ .error .outOfFuel := by
  intro toks
  induction toks with
  | nil => intro _ trace hc; simp [evalTokensWith] at hc
  | cons tok rest ih =>
    intro hev trace
    have ihr : ∀ tr, (evalTokensWith ev cell cells rest tr).1 ≠ .error .outOfFuel :=
      ih (fun r2 hr2 t ht tr2 => hev r2 (List.mem_cons_of_mem _ hr2) t ht tr2)
    cases tok with
    | Ref r =>
      rw [evalTokensWith]
      cases hf : cells.find? (fun x => x.identifier = r) with
      | none => intro hc; exact Err.noConfusion (Except.error.inj hc)
      | some target =>
        have hev0 := hev r (List.mem_cons_self _ _) target hf
        cases hevc : ev target cells
          ((if trace.isEmpty then trace ++ [cell] else trace) ++ [target]) with
        | mk res tr =>
          cases res with
          | error e =>
            simp only [hevc]
            intro hc
            have : e ≠ .outOfFuel := fun h => by
              subst h
              exact hev0 _ (by rw [hevc])
            exact this (Except.error.inj hc)
          | ok v =>
            simp only [hevc]
            cases hrec : evalTokensWith ev cell cells rest [] with
            | mk res2 tr2 =>
              have ihr2 := ihr []
              rw [hrec] at ihr2
              cases res2 with
              | ok toks2 => simp [hrec]
              | error e2 => simpa [hrec] using ihr2
    | Operator o =>
      cases hrec : evalTokensWith ev cell cells rest trace with
      | mk res2 tr2 =>
        have ihr2 := ihr trace
        rw [hrec] at ihr2
        cases res2 with
        | ok toks2 => simp [evalTokensWith, hrec]
        | error e2 => simpa [evalTokensWith, hrec] using ihr2
    | Value v =>
      cases hrec : evalTokensWith ev cell cells rest trace with
      | mk res2 tr2 =>
        have ihr2 := ihr trace
        rw [hrec] at ihr2
        cases res2 with
        | ok toks2 => simp [evalTokensWith, hrec]
        | error e2 => simpa [evalTokensWith, hrec] using ihr2

/-- On a grid whose references strictly descend a rank, evaluation of a
cell of the grid never exhausts a fuel budget exceeding the cell's rank:
the recursion terminates with call depth at most `rank + 1`. -/
theorem evalCell_not_outOfFuel_of_refsDecrease
    (rank : Str → Nat) (cells : List Cell) (hdec : RefsDecrease rank cells) :
    ∀ (fuel : Nat) (c : Cell), c ∈ cells → rank c.identifier < fuel →
      ∀ (trace : List Cell), (evalCell fuel c cells trace).1 ≠ .error .outOfFuel := by
  intro fuel
  induction fuel with
  | zero => intro c _ hr; exact absurd hr (Nat.not_lt_zero _)
  | succ n ih =>
    intro c hc hr trace
    rw [evalCell]
    split_ifs with hcyc
    · intro h; exact Err.noConfusion (Except.error.inj h)
    · cases hcont : c.content with
      | Identifier v src => intro h; exact Err.noConfusion (Except.error.inj h)
      | Value v src => intro h; exact Except.noConfusion h
      | Expression toks src =>
        have htoks : c.tokens = toks := by rw [Cell.tokens, hcont]
        have hev : ∀ r, MathToken.Ref r ∈ toks →
            ∀ t, cells.find? (fun x => x.identifier = r) = some t →
              ∀ tr, (evalCell n t cells tr).1 ≠ .error .outOfFuel := by
          intro r hrtok t ht tr
          have htmem : t ∈ cells := List.mem_of_find?_eq_some ht
          have hlt : rank t.identifier < rank c.identifier :=
            hdec c hc r (htoks ▸ hrtok) t ht
          exact ih t htmem (lt_of_lt_of_le hlt (Nat.lt_succ_iff.mp hr)) tr
        have hsub := evalTokensWith_not_outOfFuel
          (fun t cs tr => evalCell n t cs tr) c cells toks hev trace
        cases hres : evalTokensWith (fun t cs tr => evalCell n t cs tr) c cells toks trace with
        | mk res tr =>
          cases res with
          | error e =>
            simp only [hres]
            intro h
            rw [hres] at hsub
            exact hsub (by simpa using h)
          | ok prepared =>
            simp only [hres]
            cases hcm : calcMath prepared with
            | ok v => intro h; exact Except.noConfusion h
            | error e =>
              intro h
              have : e = .outOfFuel := Except.error.inj h
              subst this
              exact calcMath_not_outOfFuel prepared hcm

/- ---------------------------------------------------------------------
Claim theorems.
--------------------------------------------------------------------- -/

unseal Rat.add Rat.mul Rat.sub Rat.inv in
/-- C2: the tokenizer followed by the reducer implements two-tier
precedence with left-to-right association: tokenizing `"=1+2*3"` yields
exactly `[Value 1, Operator +, Value 2, Operator *, Value 3]` and
reducing that sequence yields `7`; tokenizing `"=10-2-3"` then reducing
yields `5`. -/
theorem claim_C2 :
    parseMathExp "=1+2*3".toList =
      .ok [.Value (.n (.num 1)), .Operator .add, .Value (.n (.num 2)),
           .Operator .mul, .Value (.n (.num 3))] ∧
    calcMath [.Value (.n (.num 1)), .Operator .add, .Value (.n (.num 2)),
              .Operator .mul, .Value (.n (.num 3))] = .ok (.n (.num 7)) ∧
    parseMathExp "=10-2-3".toList =
      .ok [.Value (.n (.num 10)), .Value (.n (.num (-2))), .Value (.n (.num (-3)))] ∧
    calcMath [.Value (.n (.num 10)), .Value (.n (.num (-2))), .Value (.n (.num (-3)))] =
      .ok (.n (.num 5)) := by
  refine ⟨by decide, by decide, by decide, by decide⟩

unseal Rat.add Rat.mul Rat.sub Rat.inv in
/-- C3: the grid `"A\n=A1"` (header `A`, one data row `=A1`) parses to a
single self-referencing cell `A1`; evaluating it fails with
`CyclicReference` whose chain is `A1 -> A1`, at call depth 2 rather than
by unbounded recursion; and in general, any call entered while the trace
has more than one entry with equal first and last entries fails at once
with `CyclicReference` reporting the trace's identifier chain. -/
theorem claim_C3 :
    (parseCells "A\n=A1".toList = .ok ([selfRefCell], [.Identifier ['A'] ['A']])) ∧
    (evalCell 5 selfRefCell [selfRefCell] [] =
      (.error (.cyclicReference [['A', '1'], ['A', '1']]), [selfRefCell, selfRefCell])) ∧
    (∀ (fuel : Nat) (cell : Cell) (cells : List Cell) (trace : List Cell),
      trace.length > 1 → trace.head? = trace.getLast? →
        evalCell (fuel + 1) cell cells trace =
          (.error (.cyclicReference (trace.map Cell.identifier)), trace)) :=
  ⟨by decide, by decide,
   fun fuel cell cells trace h1 h2 => evalCell_cyclic_guard fuel cell cells trace h1 h2⟩

/-- Witness for C3: the guard clause applied to a concrete poisoned
trace (two entries, both the `A1` cell) on an unrelated argument list. -/
theorem claim_C3_witness :
    evalCell 1 selfRefCell [] [selfRefCell, selfRefCell] =
      (.error (.cyclicReference [['A', '1'], ['A', '1']]), [selfRefCell, selfRefCell]) := by
  have h := claim_C3.2.2 0 selfRefCell [] [selfRefCell, selfRefCell] (by decide) (by decide)
  simpa using h

unseal Rat.add Rat.mul Rat.sub Rat.inv in
/-- C6: parsing `"A,B\n1,=A1+1"` synthesizes the data-cell identifiers
as header name followed by 1-based row index (`A1`, `B1`), the
identifier `A1` denotes the first data cell (the literal `1`) under
column `A`, and evaluating the cell `B1` returns `2`. -/
theorem claim_C6 :
    parseCells "A,B\n1,=A1+1".toList =
      .ok (gridABCells, [.Identifier ['A'] ['A'], .Identifier ['B'] ['B']]) ∧
    gridABCells.map Cell.identifier = [['A', '1'], ['B', '1']] ∧
    gridABCellA1.content = .Value (.num 1) ['1'] ∧
    evalCell 5 gridABCellB1 gridABCells [] = (.ok (.n (.num 2)), []) := by
  refine ⟨by decide, by decide, by decide, by decide⟩

/-- The numeric result of one collapse step, per operator. -/
def opStep : MathOp → JsNum → JsNum → JsNum
  | .add, a, b => a.add b
  | .sub, a, b => a.sub b
  | .mul, a, b => a.mul b
  | .div, a, b => a.div b

/-- C4 (amended): a single arithmetic step of the reducer fails with
`ArithmeticError` naming the offending operands exactly when the step's
result is `NaN` (the source tests `isNaN`, not finiteness); a step whose
result is merely non-finite — such as `1/0`, which yields `Infinity` —
succeeds. -/
theorem claim_C4 (o : MathOp) (a b : JsNum) :
    calcMath [.Value (.n a), .Operator o, .Value (.n b)] =
      if opStep o a b = JsNum.nan
      then .error (.arithmeticError (.n a) (.s [o.toChar]) (.n b))
      else .ok (.n (opStep o a b)) := by
  by_cases h : opStep o a b = JsNum.nan
  · rw [if_pos h]
    cases o with
    | mul =>
      simp only [opStep] at h
      have hp : runPass true [.Value (.n a), .Operator .mul, .Value (.n b)]
          [.Value (.n a), .Operator .mul, .Value (.n b)] =
          .error (.arithmeticError (.n a) (.s ['*']) (.n b)) := by
        rw [runPass, runPassAux.eq_def]
        simp [findIdxAux, isMulDiv, MathToken.jsValue, jsIsNaN, jsMul, jsToNumber,
          MathOp.toChar, h]
      simp only [calcMath, hp, MathOp.toChar]
    | div =>
      simp only [opStep] at h
      have hp : runPass true [.Value (.n a), .Operator .div, .Value (.n b)]
          [.Value (.n a), .Operator .div, .Value (.n b)] =
          .error (.arithmeticError (.n a) (.s ['/']) (.n b)) := by
        rw [runPass, runPassAux.eq_def]
        simp [findIdxAux, isMulDiv, MathToken.jsValue, jsIsNaN, jsMul, jsDiv, jsToNumber,
          MathOp.toChar, h]
      simp only [calcMath, hp, MathOp.toChar]
    | add =>
      simp only [opStep] at h
      have hp1 : runPass true [.Value (.n a), .Operator .add, .Value (.n b)]
          [.Value (.n a), .Operator .add, .Value (.n b)] =
          .ok [.Value (.n a), .Operator .add, .Value (.n b)] := by
        rw [runPass, runPassAux.eq_def]
        simp [findIdxAux, isMulDiv]
      have hp2 : runPass false [.Value (.n a), .Operator .add, .Value (.n b)]
          [.Value (.n a), .Operator .add, .Value (.n b)] =
          .error (.arithmeticError (.n a) (.s ['+']) (.n b)) := by
        rw [runPass, runPassAux.eq_def]
        simp [findIdxAux, isAddSub, MathToken.jsValue, jsIsNaN, jsAdd, jsToNumber,
          MathOp.toChar, h]
      simp only [calcMath, hp1, hp2, MathOp.toChar]
    | sub =>
      simp only [opStep] at h
      have hp1 : runPass true [.Value (.n a), .Operator .sub, .Value (.n b)]
          [.Value (.n a), .Operator .sub, .Value (.n b)] =
          .ok [.Value (.n a), .Operator .sub, .Value (.n b)] := by
        rw [runPass, runPassAux.eq_def]
        simp [findIdxAux, isMulDiv]
      have hp2 : runPass false [.Value (.n a), .Operator .sub, .Value (.n b)]
          [.Value (.n a), .Operator .sub, .Value (.n b)] =
          .error (.arithmeticError (.n a) (.s ['-']) (.n b)) := by
        rw [runPass, runPassAux.eq_def]
        simp [findIdxAux, isAddSub, MathToken.jsValue, jsIsNaN, jsAdd, jsSub, jsToNumber,
          MathOp.toChar, h]
      simp only [calcMath, hp1, hp2, MathOp.toChar]
  · rw [if_neg h]
    cases o with
    | mul =>
      simp only [opStep] at h ⊢
      have hp : runPass true [.Value (.n a), .Operator .mul, .Value (.n b)]
          [.Value (.n a), .Operator .mul, .Value (.n b)] = .ok [.Value (.n (a.mul b))] := by
        rw [runPass, runPassAux.eq_def]
        simp [findIdxAux, isMulDiv, MathToken.jsValue, jsIsNaN, jsMul, jsToNumber,
          MathOp.toChar, h]
        rw [runPassAux.eq_def]
        simp [spliceAt, findIdxAux, isMulDiv]
      have hp2 : runPass false [.Value (.n a), .Operator .mul, .Value (.n b)]
          [.Value (.n (a.mul b))] = .ok [.Value (.n (a.mul b))] := by
        rw [runPass, runPassAux.eq_def]
        simp [findIdxAux, isAddSub]
      simp only [calcMath, hp, hp2, sumTokens, jsAdd, JsNum.zero_add]
    | div =>
      simp only [opStep] at h ⊢
      have hp : runPass true [.Value (.n a), .Operator .div, .Value (.n b)]
          [.Value (.n a), .Operator .div, .Value (.n b)] = .ok [.Value (.n (a.div b))] := by
        rw [runPass, runPassAux.eq_def]
        simp [findIdxAux, isMulDiv, MathToken.jsValue, jsIsNaN, jsMul, jsDiv, jsToNumber,
          MathOp.toChar, h]
        rw [runPassAux.eq_def]
        simp [spliceAt, findIdxAux, isMulDiv]
      have hp2 : runPass false [.Value (.n a), .Operator .div, .Value (.n b)]
          [.Value (.n (a.div b))] = .ok [.Value (.n (a.div b))] := by
        rw [runPass, runPassAux.eq_def]
        simp [findIdxAux, isAddSub]
      simp only [calcMath, hp, hp2, sumTokens, jsAdd, JsNum.zero_add]
    | add =>
      simp only [opStep] at h ⊢
      have hp1 : runPass true [.Value (.n a), .Operator .add, .Value (.n b)]
          [.Value (.n a), .Operator .add, .Value (.n b)] =
          .ok [.Value (.n a), .Operator .add, .Value (.n b)] := by
        rw [runPass, runPassAux.eq_def]
        simp [findIdxAux, isMulDiv]
      have hp2 : runPass false [.Value (.n a), .Operator .add, .Value (.n b)]
          [.Value (.n a), .Operator .add, .Value (.n b)] = .ok [.Value (.n (a.add b))] := by
        rw [runPass, runPassAux.eq_def]
        simp [findIdxAux, isAddSub, MathToken.jsValue, jsIsNaN, jsAdd, jsToNumber,
          MathOp.toChar, h]
        rw [runPassAux.eq_def]
        simp [spliceAt, findIdxAux, isAddSub]
      simp only [calcMath, hp1, hp2, sumTokens, jsAdd, JsNum.zero_add]
    | sub =>
      simp only [opStep] at h ⊢
      have hp1 : runPass true [.Value (.n a), .Operator .sub, .Value (.n b)]
          [.Value (.n a), .Operator .sub, .Value (.n b)] =
          .ok [.Value (.n a), .Operator .sub, .Value (.n b)] := by
        rw [runPass, runPassAux.eq_def]
        simp [findIdxAux, isMulDiv]
      have hp2 : runPass false [.Value (.n a), .Operator .sub, .Value (.n b)]
          [.Value (.n a), .Operator .sub, .Value (.n b)] = .ok [.Value (.n (a.sub b))] := by
        rw [runPass, runPassAux.eq_def]
        simp [findIdxAux, isAddSub, MathToken.jsValue, jsIsNaN, jsAdd, jsSub, jsToNumber,
          MathOp.toChar, h]
        rw [runPassAux.eq_def]
        simp [spliceAt, findIdxAux, isAddSub]
      simp only [calcMath, hp1, hp2, sumTokens, jsAdd, JsNum.zero_add]

unseal Rat.add Rat.mul Rat.sub Rat.inv in
/-- C4 counterexample: division by zero (`"=1/0"`) yields the non-finite
result `Infinity`, and the reducer succeeds with it instead of failing
with `ArithmeticError` — `isNaN(Infinity)` is false. -/
theorem claim_C4_counterexample :
    parseMathExp "=1/0".toList =
      .ok [.Value (.n (.num 1)), .Operator .div, .Value (.n (.num 0))] ∧
    calcMath [.Value (.n (.num 1)), .Operator .div, .Value (.n (.num 0))] =
      .ok (.n .posInf) :=
  ⟨by decide, by decide⟩

/-- Whether a token is a `Ref` (`t.type === "Ref"`). -/
def MathToken.isRef : MathToken → Bool
  | .Ref _ => true
  | _ => false

/-- Whether a token is a `Value` (`t.type === "Value"`). -/
def MathToken.isValue : MathToken → Bool
  | .Value _ => true
  | _ => false

unseal Rat.add Rat.mul Rat.sub Rat.inv in
/-- C5 counterexample: the token sequences of `"=1+"` and `"=+1"` reduce
to a dangling operator, but the reducer fails with the `TypeError` of
reading `.value` on the `undefined` out-of-range neighbour in the
collapse loop — not with the `MalformedExpression` fold error the claim
asserts. -/
theorem claim_C5_counterexample :
    parseMathExp "=1+".toList = .ok [.Value (.n (.num 1)), .Operator .add] ∧
    calcMath [.Value (.n (.num 1)), .Operator .add] = .error .typeError ∧
    parseMathExp "=+1".toList = .ok [.Operator .add, .Value (.n (.num 1))] ∧
    calcMath [.Operator .add, .Value (.n (.num 1))] = .error .typeError :=
  ⟨by decide, by decide, by decide, by decide⟩

unseal Rat.add Rat.mul Rat.sub Rat.inv in
/-- C5 (amended): a leading or trailing dangling operator (e.g. the
tokenizations of `"=1+"` and `"=+1"`) makes the collapse loop read a
neighbour that is out of range and fail with a `TypeError`, not with the
final fold's error; a doubled operator (e.g. `"=1+ - 2"`) is consumed as
an operand by the collapse step and fails with `ArithmeticError` through
`NaN` coercion; and the final fold's `MalformedExpression`
(`Invalid token`) error is unreachable on any `Ref`-free token sequence,
because the two passes remove every operator. -/
theorem claim_C5 :
    calcMath [.Value (.n (.num 1)), .Operator .add] = .error .typeError ∧
    calcMath [.Operator .add, .Value (.n (.num 1))] = .error .typeError ∧
    parseMathExp "=1+ - 2".toList =
      .ok [.Value (.n (.num 1)), .Operator .add, .Operator .sub, .Value (.n (.num 2))] ∧
    calcMath [.Value (.n (.num 1)), .Operator .add, .Operator .sub, .Value (.n (.num 2))] =
      .error (.arithmeticError (.n (.num 1)) (.s ['+']) (.s ['-'])) ∧
    (∀ (l : List MathToken) (jv : JsVal), (∀ t ∈ l, t.isRef = false) →
      calcMath l ≠ .error (.invalidToken jv)) := by
  refine ⟨by decide, by decide, by decide, by decide, ?_⟩
  intro l jv hl
  refine calcMath_no_invalidToken l (fun t ht r hr => ?_) jv
  subst hr
  simpa [MathToken.isRef] using hl _ ht

/-- Witness for C5: the `Ref`-free token list `[Value 3]` can never
produce the fold's `Invalid token` error. -/
theorem claim_C5_witness :
    calcMath [.Value (.n (.num 3))] ≠ .error (.invalidToken (.s ['x'])) :=
  claim_C5.2.2.2.2 [.Value (.n (.num 3))] (.s ['x']) (by decide)

/-- C7: parsing an empty grid source — the empty string, or text whose
every comma-separated field on every line is whitespace-only — succeeds
with the empty pair of cells and header rather than raising an error. -/
theorem claim_C7 :
    (∀ src : Str,
      (∀ line ∈ src.splitOn '\n', ∀ fld ∈ line.splitOn ',', jsTrim fld = []) →
        parseCells src = .ok ([], [])) ∧
    parseCells [] = .ok ([], []) ∧
    parseCells "\n \n".toList = .ok ([], []) ∧
    parseCells " ,,\n, ".toList = .ok ([], []) := by
  refine ⟨?_, by decide, by decide, by decide⟩
  intro src h
  have hrows : ((src.splitOn '\n').map
      (fun line => (line.splitOn ',').filter (fun t => !(jsTrim t).isEmpty))).filter
        (fun c => !c.isEmpty) = [] := by
    rw [List.filter_eq_nil_iff]
    intro a ha
    rcases List.mem_map.mp ha with ⟨line, hline, rfl⟩
    have hempty : (line.splitOn ',').filter (fun t => !(jsTrim t).isEmpty) = [] := by
      rw [List.filter_eq_nil_iff]
      intro t ht
      simp [h line hline t ht]
    simp [hempty]
  simp only [parseCells, hrows, List.map_nil]

/-- Witness for C7: a source of one blank line and one empty line. -/
theorem claim_C7_witness : parseCells " \n".toList = .ok ([], []) :=
  claim_C7.1 " \n".toList (by decide)

/-- C8: `evalCell` is not a pure function of its arguments.  Evaluating
the self-referencing cell throws `CyclicReference` and leaves the shared
trace with two equal entries; with that leftover trace, any subsequent
call — any fuel, any cell, any grid, here a plain literal `Value` cell
of the acyclic grid `"A,B\n1,=A1+1"` — also throws `CyclicReference`,
while the identically-argumented call with a clean trace returns the
literal: the same arguments give different outcomes depending on
earlier calls. -/
theorem claim_C8 :
    (evalCell 5 selfRefCell [selfRefCell] [] =
      (.error (.cyclicReference [['A', '1'], ['A', '1']]), [selfRefCell, selfRefCell])) ∧
    (∀ (fuel : Nat) (cell : Cell) (cells : List Cell),
      (evalCell (fuel + 1) cell cells [selfRefCell, selfRefCell]).1 =
        .error (.cyclicReference [['A', '1'], ['A', '1']])) ∧
    ((evalCell 5 gridABCellA1 gridABCells []).1 = .ok (.n (.num 1))) ∧
    ((evalCell 5 gridABCellA1 gridABCells [selfRefCell, selfRefCell]).1 =
      .error (.cyclicReference [['A', '1'], ['A', '1']])) := by
  refine ⟨by decide, ?_, by decide, by decide⟩
  intro fuel cell cells
  rw [evalCell_cyclic_guard fuel cell cells [selfRefCell, selfRefCell]
    (by decide) (by decide)]
  rfl

/-- C9 counterexample: a token sequence with no `Operator` token but a
`Ref` token does not reduce to the sum of its `Value` tokens — the fold
raises the `Invalid token` error on it. -/
theorem claim_C9_counterexample :
    calcMath [.Ref ['A']] = .error (.invalidToken (.s ['A'])) := by decide

unseal Rat.add Rat.mul Rat.sub Rat.inv in
/-- C9 (amended): the reducer applied to a token sequence of only
`Value` tokens returns their sum starting from `0` (adjacent values are
summed rather than rejected), and the empty sequence — the tokenization
of the bare formula `"="` — reduces to `0`; a `Ref` token (which the
claim's premise does not exclude, but which the evaluator always
substitutes away) instead raises the fold's error. -/
theorem claim_C9 :
    (∀ l : List MathToken, (∀ t ∈ l, t.isValue = true) →
      calcMath l = .ok (l.foldl (fun a t => jsAdd a t.jsValue) (.n (.num 0)))) ∧
    parseMathExp "=".toList = .ok [] ∧
    calcMath [] = .ok (.n (.num 0)) ∧
    calcMath [.Value (.n (.num 1)), .Value (.n (.num 2))] = .ok (.n (.num 3)) := by
  refine ⟨?_, by decide, by decide, by decide⟩
  intro l hl
  refine calcMath_all_value l (fun t ht => ?_)
  have := hl t ht
  cases t with
  | Value v => exact ⟨v, rfl⟩
  | Operator o => simp [MathToken.isValue] at this
  | Ref r => simp [MathToken.isValue] at this

/-- Witness for C9: two adjacent values with no operator sum to `9`. -/
theorem claim_C9_witness :
    calcMath [.Value (.n (.num 4)), .Value (.n (.num 5))] =
      .ok (([MathToken.Value (.n (.num 4)), .Value (.n (.num 5))]).foldl
        (fun a t => jsAdd a t.jsValue) (.n (.num 0))) :=
  claim_C9.1 [.Value (.n (.num 4)), .Value (.n (.num 5))] (by decide)

unseal Rat.add Rat.mul Rat.sub Rat.inv in
/-- C10: the cell classifier accepts any raw cell string with a
parseable numeric prefix as a `Value` carrying only that prefix
(`"12abc"` classifies as `Value 12`), and `InvalidCellValue` is raised
only when the string's leading characters do not parse as a float at
all. -/
theorem claim_C10 :
    parseCell "12abc".toList = .ok (.Value (.num 12) "12abc".toList) ∧
    (∀ (src s : Str), parseCell src = .error (.invalidCellValue s) →
      jsParseFloat src = .nan) ∧
    (∀ src : Str, isAlphaStr src = false → src.head? ≠ some '=' →
      jsParseFloat src ≠ .nan → parseCell src = .ok (.Value (jsParseFloat src) src)) := by
  refine ⟨by decide, ?_, ?_⟩
  · intro src s he
    rw [parseCell] at he
    split_ifs at he with h1 h2 h3
    · -- expression branch: the tokenizer only raises `InvalidNumberLiteral`
      cases hs : src with
      | nil => rw [hs] at h2; simp at h2
      | cons c tail =>
        rw [hs] at h2 he
        have hc : c = '=' := by simpa using h2
        subst hc
        cases hx : parseMathExp ('=' :: tail) with
        | ok e => rw [hx] at he; simp [Except.map] at he
        | error e2 =>
          rw [hx] at he
          simp only [Except.map] at he
          rw [parseMathExp] at hx
          rcases tokenizeAux_error _ _ _ _ hx with ⟨raw, rfl⟩
          exact Err.noConfusion (Except.error.inj he)
    · exact h3
  · intro src h1 h2 h3
    simp [parseCell, h1, h2, h3]

unseal Rat.add Rat.mul Rat.sub Rat.inv in
/-- Witness for C10: `"abc!"` has no numeric prefix and is rejected;
`"3x"` has the numeric prefix `3` and classifies as `Value 3`. -/
theorem claim_C10_witness :
    jsParseFloat "abc!".toList = .nan ∧
    parseCell "3x".toList = .ok (.Value (jsParseFloat "3x".toList) "3x".toList) :=
  ⟨claim_C10.2.1 "abc!".toList "abc!".toList (by decide),
   claim_C10.2.2 "3x".toList (by decide) (by decide) (by decide)⟩

set_option maxRecDepth 8000 in
/-- C1 counterexample: the well-formed 3-cell grid `"A,B,C\n=B1,=C1,=B1"`
contains the reference cycle `B1 → C1 → B1`, which never returns to the
first entry of the trace when `A1` is evaluated, so the endpoint cycle
check never fires: evaluating `A1` is still recursing at call depth 50,
far beyond the number of cells (3) — the recursion is unbounded, not
stopped by cycle detection. -/
theorem claim_C1_counterexample :
    parseCells "A,B,C\n=B1,=C1,=B1".toList =
      .ok (cycCells,
        [.Identifier ['A'] ['A'], .Identifier ['B'] ['B'], .Identifier ['C'] ['C']]) ∧
    cycCells.length = 3 ∧
    cycCells.head? = some cycCellA1 ∧
    (evalCell 50 cycCellA1 cycCells []).1 = .error .outOfFuel :=
  ⟨by decide, by decide, by decide, by decide⟩

/-- C1 (amended): evaluation of a cell of a well-formed grid terminates
whenever the grid's reference structure is acyclic — witnessed by a rank
that strictly decreases along every resolvable reference: with any
call-stack budget exceeding the evaluated cell's rank, the recursion
finishes without exhausting the budget (depth at most `rank + 1`).  For
cyclic structures this bound fails: cycle detection stops only chains
that return to the trace's first cell, and a cycle avoiding that cell
recurses past any depth bound, including the number of cells. -/
theorem claim_C1 (rank : Str → Nat) (cells : List Cell)
    (hdec : RefsDecrease rank cells) (fuel : Nat) (c : Cell)
    (hmem : c ∈ cells) (hrank : rank c.identifier < fuel) (trace : List Cell) :
    (evalCell fuel c cells trace).1 ≠ .error .outOfFuel :=
  evalCell_not_outOfFuel_of_refsDecrease rank cells hdec fuel c hmem hrank trace

/-- Witness for C1: on the acyclic grid `"A,B\n1,=A1+1"` with the rank
`A1 ↦ 0, B1 ↦ 1`, evaluating `B1` with fuel 2 does not run out. -/
theorem claim_C1_witness :
    (evalCell 2 gridABCellB1 gridABCells []).1 ≠ .error .outOfFuel := by
  refine claim_C1 rankAB gridABCells ?_ 2 gridABCellB1 (by decide) (by decide) []
  intro c hc r hr t ht
  have hc2 : c = gridABCellA1 ∨ c = gridABCellB1 := by
    simpa [gridABCells] using hc
  rcases hc2 with rfl | rfl
  · simp [Cell.tokens, gridABCellA1] at hr
  · have hr2 : r = ['A', '1'] := by
      simpa [Cell.tokens, gridABCellB1] using hr
    subst hr2
    have hfind : List.find? (fun x => decide (x.identifier = ['A', '1'])) gridABCells =
        some gridABCellA1 := by decide
    rw [hfind] at ht
    injection ht with h
    subst h
    decide
